import Mathlib

/-!
Verification development for the hair-imaging geometry/statistics core
(`api/src/triangle_detector.py` and `api/src/utils.py`).

Modelling conventions:

* Python floats are modelled by exact rationals (ℚ).  All the arithmetic the
  claims are about (comparisons against the 1e-10 / 1e-9 epsilons, barycentric
  coordinates, areas, means and variances) is rational; we note at each use
  site where float rounding could differ from the exact model.
* A Python function that can raise an exception is modelled with an
  Option/Except result, where a missing value stands for the raised exception
  (for the point-in-triangle test: ZeroDivisionError from `1 / denom` when the
  denominator is exactly zero, or an IndexError on a short triangle list).
* The module `triangle_detector.py` defines `point_in_triangle`,
  `convex_hull` and `triangle_area` twice; at runtime the later definition of
  each name shadows the earlier one, so the effective versions are the ones at
  lines 495, 351 and 331.  We embed the effective versions under the source
  names and additionally embed the shadowed (dead) `point_in_triangle` of
  line 153 as `point_in_triangle_shadowed`, because several spec sentences
  describe that dead definition.
* Python's `list(set(xs))` iterates the set in an unspecified order; it is
  modelled by first-occurrence deduplication (`dedupSet`).  Every fact proved
  about a value that passed through `dedupSet` either only depends on the
  underlying set, or is an evaluation of this fixed model, as noted.
* Python's `sorted` is a stable sort; it is modelled by Mathlib's
  `List.insertionSort`, which is stable, applied to a key order that agrees
  with the order of the float `math.atan2` values used by the source (see
  `polar_key`).
-/

/-- A 2-D point, Python tuple/list `(x, y)` with float coordinates. -/
abbrev Pt : Type := ℚ × ℚ

instance {ε α : Type} [DecidableEq ε] [DecidableEq α] : DecidableEq (Except ε α) := fun x y =>
  match x, y with
  | Except.error a, Except.error b =>
    if h : a = b then Decidable.isTrue (congrArg Except.error h)
    else Decidable.isFalse (fun hh => h (Except.error.inj hh))
  | Except.ok a, Except.ok b =>
    if h : a = b then Decidable.isTrue (congrArg Except.ok h)
    else Decidable.isFalse (fun hh => h (Except.ok.inj hh))
  | Except.error _, Except.ok _ => Decidable.isFalse (fun hh => Except.noConfusion hh)
  | Except.ok _, Except.error _ => Decidable.isFalse (fun hh => Except.noConfusion hh)

/-- The literal 1e-10 used by the source. -/
def eps10 : ℚ := 1 / 10 ^ 10

/-- The literal 1e-9 used by the source (point deduplication in `convex_hull`). -/
def eps9 : ℚ := 1 / 10 ^ 9

/-- Source `cross_product_2d(a, b, c)` (triangle_detector.py line 346):
2-D cross product of the vectors a→b and a→c. -/
def cross_product_2d (a b c : Pt) : ℚ :=
  (b.1 - a.1) * (c.2 - a.2) - (b.2 - a.2) * (c.1 - a.1)

/-- Source `triangle_area(triangle)` — the effective (second) definition at
line 331, which shadows the one at line 145; `triangle_area_list` (line 529)
computes the same value.  Returns 0 when the list does not have exactly 3
points, otherwise |cross| / 2. -/
def triangle_area : List Pt → ℚ
  | [p0, p1, p2] =>
    let v1 : Pt := (p1.1 - p0.1, p1.2 - p0.2)
    let v2 : Pt := (p2.1 - p0.1, p2.2 - p0.2)
    |v1.1 * v2.2 - v1.2 * v2.1| / 2
  | _ => 0

/-- Source `point_in_triangle(point, triangle)` — the EFFECTIVE definition at
line 495, which at runtime shadows the tolerant one at line 153.  Dot-product
barycentric test with no epsilon tolerance.  Python computes
`inv_denom = 1 / (dot00 * dot11 - dot01 * dot01)`, which raises
ZeroDivisionError when the denominator is exactly 0 (by Lagrange's identity
the denominator equals the squared cross product of the two edge vectors,
so it is 0 exactly when the triangle is degenerate); the raised exception is
modelled by the result none.  A triangle list with fewer than 3 points would
raise IndexError, also modelled by none. -/
def point_in_triangle (point : Pt) (triangle : List Pt) : Option Bool :=
  match triangle with
  | p1 :: p2 :: p3 :: _ =>
    let v0 : Pt := (p3.1 - p1.1, p3.2 - p1.2)
    let v1 : Pt := (p2.1 - p1.1, p2.2 - p1.2)
    let v2 : Pt := (point.1 - p1.1, point.2 - p1.2)
    let dot00 := v0.1 * v0.1 + v0.2 * v0.2
    let dot01 := v0.1 * v1.1 + v0.2 * v1.2
    let dot02 := v0.1 * v2.1 + v0.2 * v2.2
    let dot11 := v1.1 * v1.1 + v1.2 * v1.2
    let dot12 := v1.1 * v2.1 + v1.2 * v2.2
    let denom := dot00 * dot11 - dot01 * dot01
    if denom = 0 then none
    else
      let inv_denom := 1 / denom
      let u := (dot11 * dot02 - dot01 * dot12) * inv_denom
      let v := (dot00 * dot12 - dot01 * dot02) * inv_denom
      some (decide (0 ≤ u) && decide (0 ≤ v) && decide (u + v ≤ 1))
  | _ => none

/-- Source `point_in_triangle(point, triangle)` at line 153 — the SHADOWED
(dead) definition: barycentric test with the −1e-10 tolerance and an explicit
degenerate-triangle guard.  It never raises on a well-formed triangle list. -/
def point_in_triangle_shadowed (point : Pt) (triangle : List Pt) : Option Bool :=
  match triangle with
  | t1 :: t2 :: t3 :: _ =>
    let x := point.1
    let y := point.2
    let denom := (t2.2 - t3.2) * (t1.1 - t3.1) + (t3.1 - t2.1) * (t1.2 - t3.2)
    if |denom| < eps10 then some false
    else
      let a := ((t2.2 - t3.2) * (x - t3.1) + (t3.1 - t2.1) * (y - t3.2)) / denom
      let b := ((t3.2 - t1.2) * (x - t3.1) + (t1.1 - t3.1) * (y - t3.2)) / denom
      let c := 1 - a - b
      some (decide (-eps10 ≤ a) && decide (-eps10 ≤ b) && decide (-eps10 ≤ c))
  | _ => none

/-- Source `all_points_in_triangle(triangle, points)` (line 173):
`all(point_in_triangle(point, triangle) for point in points)`.  The generator
short-circuits on the first false; an exception raised by the effective
`point_in_triangle` propagates (modelled by none). -/
def all_points_in_triangle (triangle : List Pt) : List Pt → Option Bool
  | [] => some true
  | p :: rest =>
    match point_in_triangle p triangle with
    | none => none
    | some false => some false
    | some true => all_points_in_triangle triangle rest

/-! ### Convex hull (effective definition, triangle_detector.py line 351) -/

/-- The closeness test of the dedup loop in `convex_hull` (line 370):
both coordinate differences below 1e-9 in absolute value. -/
def close_points (p q : Pt) : Bool :=
  decide (|p.1 - q.1| < eps9) && decide (|p.2 - q.2| < eps9)

/-- The dedup loop of `convex_hull` (lines 366-374): keep a point iff it is
not close to any previously kept point; kept points stay in first-occurrence
order. -/
def dedup_close_go (acc : List Pt) : List Pt → List Pt
  | [] => acc
  | p :: rest =>
    if acc.any (fun e => close_points p e) then dedup_close_go acc rest
    else dedup_close_go (acc ++ [p]) rest

/-- Deduplicated point list of `convex_hull` (its `unique_points`). -/
def dedup_close (points : List Pt) : List Pt := dedup_close_go [] points

/-- The anchor key `lambda p: (p[1], p[0])` (line 380), lexicographic. -/
def anchor_key (p : Pt) : Lex (ℚ × ℚ) := toLex (p.2, p.1)

/-- Python `min(l, key=f)`: the first element attaining the minimal key. -/
def min_key_by (f : Pt → Lex (ℚ × ℚ)) (p : Pt) (l : List Pt) : Pt :=
  l.foldl (fun b q => if f q < f b then q else b) p

/-- Source `start = min(unique_points, key=lambda p: (p[1], p[0]))`.
Python's `min` raises on an empty list; `convex_hull` only reaches it with at
least 3 points, so the empty case (arbitrarily `(0, 0)`) is unreachable. -/
def start_point : List Pt → Pt
  | [] => (0, 0)
  | p :: rest => min_key_by anchor_key p rest

/-- Sort key modelling the float `math.atan2(dy, dx)` of `polar_angle`
(lines 383-387).  `atan2` maps a nonzero direction to its angle in (−π, π];
the pair below is a strictly monotone image of that angle, compared
lexicographically: the first component splits the range into
(−π,0) < {0} < (0,π) < {π} (values 0,1,2,3) and within the two open
half-planes the angle is strictly increasing in −dx/dy.  Python's
`polar_angle` returns 0 for the zero direction, which lands in the same key
class as angle 0, exactly as in the source.  Two points get equal keys
exactly when their real atan2 angles are equal; the model thus matches the
float behaviour except for distinct angles that round to the same float,
which cannot happen for the small inputs evaluated here. -/
def polar_key (s p : Pt) : Lex (ℚ × ℚ) :=
  let dx := p.1 - s.1
  let dy := p.2 - s.2
  if dx = 0 ∧ dy = 0 then toLex (1, 0)
  else if dy < 0 then toLex (0, -(dx / dy))
  else if dy = 0 then (if 0 < dx then toLex (1, 0) else toLex (3, 0))
  else toLex (2, -(dx / dy))

/-- Source `sorted(other_points, key=polar_angle)` (line 390).  Python's sort
is stable; `List.insertionSort` with the reflexive key order is stable as
well, and any two stable sorts of the same list under the same key order
coincide. -/
def sort_by_polar (s : Pt) (l : List Pt) : List Pt :=
  l.insertionSort (fun p q => polar_key s p ≤ polar_key s q)

/-- The `while` loop of the Graham scan (lines 396-398), acting on the stack
stored in reversed order (head = top of the Python list): pop while the top
two stack points `a, b` (in hull order) and the new point make a
non-counter-clockwise turn. -/
def pop_stack (p : Pt) : List Pt → List Pt
  | b :: a :: rest =>
    if cross_product_2d a b p ≤ 0 then pop_stack p (a :: rest) else b :: a :: rest
  | l => l

/-- The `for` loop of the Graham scan (lines 395-399) over the sorted points,
on the reversed stack. -/
def hull_scan_go (acc : List Pt) : List Pt → List Pt
  | [] => acc
  | p :: rest => hull_scan_go (p :: pop_stack p acc) rest

/-- Source `convex_hull(points)` — the EFFECTIVE (second) definition at line
351, which at runtime shadows the one at line 116.  Note its polar sort has
no distance tie-break (unlike the shadowed line-116 version, whose key is the
pair (angle, squared distance)).  The try/except wrapper of the source cannot
fire: the body performs no division and `min`/`sorted` are reached only with
nonempty input. -/
def convex_hull (points : List Pt) : List Pt :=
  if points.length < 3 then points
  else
    let unique := dedup_close points
    if unique.length < 3 then unique
    else
      let start := start_point unique
      let others := unique.filter (fun p => decide (p ≠ start))
      let sorted := sort_by_polar start others
      (hull_scan_go [start] sorted).reverse

/-! ### Minimum enclosing triangle solver (triangle_detector.py lines 10-231) -/

/-- Model of Python's `list(set(points))` (lines 80, 223): duplicates removed.
CPython iterates a set in an unspecified (hash-dependent) order; the model
fixes first-occurrence order.  Facts proved through this definition either
depend only on the underlying set or are evaluations of this fixed model. -/
def dedupSet_go (acc : List Pt) : List Pt → List Pt
  | [] => acc
  | p :: rest =>
    if acc.contains p then dedupSet_go acc rest else dedupSet_go (acc ++ [p]) rest

/-- See `dedupSet_go`. -/
def dedupSet (l : List Pt) : List Pt := dedupSet_go [] l

/-- All ordered pairs (l[i], l[j]) with i < j, in the loop order of the
source's nested `for i ... for j in range(i+1, n)`. -/
def pairs_after : List Pt → List (Pt × Pt)
  | [] => []
  | x :: xs => xs.map (fun y => (x, y)) ++ pairs_after xs

/-- All triangles [l[i], l[j], l[k]] with i < j < k, in the loop order of the
source's triple loop (lines 96-98). -/
def triples_after : List Pt → List (List Pt)
  | [] => []
  | x :: xs => (pairs_after xs).map (fun pq => [x, pq.1, pq.2]) ++ triples_after xs

/-- The running-minimum update shared by both search loops (lines 103-106 and
208-211): Python tracks `min_area` (initially infinity) and `best_triangle`
(initially None); a candidate replaces the best one iff its area is strictly
smaller, so the first minimum in loop order is kept on exact ties. -/
def min_update (st : Option (List Pt × ℚ)) (t : List Pt) : Option (List Pt × ℚ) :=
  let area := triangle_area t
  match st with
  | none => some (t, area)
  | some (bt, ba) => if area < ba then some (t, area) else some (bt, ba)

/-- One iteration of the hull-triple loop body (lines 99-106): if the
candidate triangle encloses all points and improves the strict minimum area,
it becomes the best candidate.  A fault of `point_in_triangle` propagates as
an exception. -/
def enclosing_step (pts : List Pt) (st : Option (List Pt × ℚ)) (t : List Pt) :
    Except Unit (Option (List Pt × ℚ)) :=
  match all_points_in_triangle t pts with
  | none => Except.error ()
  | some false => Except.ok st
  | some true => Except.ok (min_update st t)

/-- The hull-triple search loop of `smallest_enclosing_triangle`
(lines 90-106), folded over the candidate triangles. -/
def enclosing_search (pts : List Pt) :
    List (List Pt) → Option (List Pt × ℚ) → Except Unit (Option (List Pt × ℚ))
  | [], st => Except.ok st
  | t :: ts, st =>
    match enclosing_step pts st t with
    | Except.error e => Except.error e
    | Except.ok st2 => enclosing_search pts ts st2

/-- One iteration of the inner candidate loop of
`find_minimum_triangle_advanced` (lines 197-211): skip the pair's own
endpoints, skip candidates of area below 1e-10, otherwise run the enclosure
test and keep the strict minimum. -/
def adv_step (pts : List Pt) (p1 p2 : Pt) (st : Option (List Pt × ℚ)) (p3 : Pt) :
    Except Unit (Option (List Pt × ℚ)) :=
  if p3 = p1 ∨ p3 = p2 then Except.ok st
  else
    let t := [p1, p2, p3]
    if triangle_area t < eps10 then Except.ok st
    else
      match all_points_in_triangle t pts with
      | none => Except.error ()
      | some false => Except.ok st
      | some true => Except.ok (min_update st t)

/-- The inner candidate loop of `find_minimum_triangle_advanced` for one hull
pair, folded over the candidate third vertices. -/
def adv_inner (pts : List Pt) (p1 p2 : Pt) :
    List Pt → Option (List Pt × ℚ) → Except Unit (Option (List Pt × ℚ))
  | [], st => Except.ok st
  | p3 :: cs, st =>
    match adv_step pts p1 p2 st p3 with
    | Except.error e => Except.error e
    | Except.ok st2 => adv_inner pts p1 p2 cs st2

/-- The outer pair loop of `find_minimum_triangle_advanced` (lines 189-211),
folded over the hull pairs; `cands` is `hull + points`. -/
def adv_pairs (pts : List Pt) (cands : List Pt) :
    List (Pt × Pt) → Option (List Pt × ℚ) → Except Unit (Option (List Pt × ℚ))
  | [], st => Except.ok st
  | pr :: prs, st =>
    match adv_inner pts pr.1 pr.2 cands st with
    | Except.error e => Except.error e
    | Except.ok st2 => adv_pairs pts cands prs st2

/-- Python `min(l, key=f)` over rational keys: first element with minimal key. -/
def min_by_q (f : Pt → ℚ) (p : Pt) (l : List Pt) : Pt :=
  l.foldl (fun b q => if f q < f b then q else b) p

/-- Python `max(l, key=f)` over rational keys: first element with maximal key. -/
def max_by_q (f : Pt → ℚ) (p : Pt) (l : List Pt) : Pt :=
  l.foldl (fun b q => if f b < f q then q else b) p

/-- Source `find_minimum_triangle_advanced(points, hull)` (lines 178-231):
pair search over `hull` with third vertices from `hull + points`, then the
extreme-point fallback, then the first-three-points fallback.  Python `min`
on an empty `points` would raise; its callers always pass a nonempty list,
and the empty case is modelled as the exception it would raise. -/
def find_minimum_triangle_advanced (pts hull : List Pt) : Except Unit (List Pt) :=
  let cands := hull ++ pts
  match adv_pairs pts cands (pairs_after hull) none with
  | Except.error e => Except.error e
  | Except.ok (some (bt, _)) => Except.ok bt
  | Except.ok none =>
    match pts with
    | [] => Except.error ()
    | p :: rest =>
      let min_x := min_by_q (fun q => q.1) p rest
      let max_x := max_by_q (fun q => q.1) p rest
      let min_y := min_by_q (fun q => q.2) p rest
      let max_y := max_by_q (fun q => q.2) p rest
      let extreme := dedupSet [min_x, max_x, min_y, max_y]
      if 3 ≤ extreme.length then Except.ok (extreme.take 3)
      else Except.ok (pts.take 3)

/-- Source `smallest_enclosing_triangle(points)` (lines 66-113).  The two
`raise ValueError` statements and a propagated ZeroDivisionError are modelled
as `Except.error`. -/
def smallest_enclosing_triangle (points : List Pt) : Except Unit (List Pt) :=
  if points.length < 3 then Except.error ()
  else
    let unique := dedupSet points
    if unique.length < 3 then Except.error ()
    else
      let hull := convex_hull unique
      if hull.length = 3 then Except.ok hull
      else
        match enclosing_search unique (triples_after hull) none with
        | Except.error e => Except.error e
        | Except.ok (some (bt, _)) => Except.ok bt
        | Except.ok none => find_minimum_triangle_advanced unique hull

/-- Source `get_smallest_triangle(contour)` (lines 10-63).  The contour is
modelled as a list of well-formed points (the source filters malformed
entries, which are outside the model).  An exception raised inside the `try`
block is caught and answered by the emergency fallback: the first three
contour points.  A successful `smallest_enclosing_triangle` is never None,
so the source's `is None` check never fires. -/
def get_smallest_triangle (contour : List Pt) : Option (List Pt) :=
  if contour.length < 3 then none
  else
    match smallest_enclosing_triangle contour with
    | Except.ok tri => some tri
    | Except.error _ => if 3 ≤ contour.length then some (contour.take 3) else none

/-! ### Orientation extractor (triangle_detector.py lines 234-268) -/

/-- The squared Euclidean distance.  Source `distance` (line 326) is
`math.sqrt` of this;  the square root is irrational in general, and the code
only compares distances, so the model works with the squares: `sqrt` is
strictly monotone on nonnegative reals, hence minimisation and exact ties of
the lengths coincide with those of the squared lengths. -/
def sq_distance (p1 p2 : Pt) : ℚ :=
  (p2.1 - p1.1) ^ 2 + (p2.2 - p1.2) ^ 2

/-- Vertex i (mod 3) of a 3-point triangle list, for spec-level statements. -/
def tri_vertex (t : List Pt) (i : ℕ) : Pt := t.getD (i % 3) (0, 0)

/-- Squared length of edge i of a triangle: it joins vertices i and
(i+1) mod 3. -/
def edge_sq (t : List Pt) (i : ℕ) : ℚ :=
  sq_distance (tri_vertex t i) (tri_vertex t (i + 1))

/-- Source `find_shortest_side_and_apex(triangle)` (lines 234-268).  Returns
`(middle point of the shortest side, opposite apex)`, or none when the input
is not exactly 3 points (Python returns `(None, None)` then).  Python selects
`min(side_lengths, key=lambda x: x[0])`, the first minimum in scan order; the
nested conditionals below reproduce that scan on squared lengths. -/
def find_shortest_side_and_apex (triangle : List Pt) : Option (Pt × Pt) :=
  match triangle with
  | [p0, p1, p2] =>
    let d0 := sq_distance p0 p1
    let d1 := sq_distance p1 p2
    let d2 := sq_distance p2 p0
    let side_idx : ℕ :=
      if d1 < d0 then (if d2 < d1 then 2 else 1) else (if d2 < d0 then 2 else 0)
    let ep1 := if side_idx = 0 then p0 else if side_idx = 1 then p1 else p2
    let ep2 := if side_idx = 0 then p1 else if side_idx = 1 then p2 else p0
    let middle_point : Pt := ((ep1.1 + ep2.1) / 2, (ep1.2 + ep2.2) / 2)
    let apex := if side_idx = 0 then p2 else if side_idx = 1 then p0 else p1
    some (middle_point, apex)
  | _ => none

/-! ### Report generator (utils.py lines 292-434) -/

/-- ASCII lower-casing of one character, the fragment of Python's
`str.lower` relevant to the class labels handled here. -/
def to_lower_char (c : Char) : Char :=
  if 'A' ≤ c ∧ c ≤ 'Z' then Char.ofNat (c.toNat + 32) else c

/-- Python's substring containment `needle in haystack` on character lists. -/
def contains_sub (haystack needle : List Char) : Bool :=
  haystack.tails.any (fun t => needle.isPrefixOf t)

/-- The closed set of class names produced by `get_hair_strand_class_name`;
the Python function returns one of the four string literals, modelled as an
enumeration. -/
inductive HairClass : Type
  | strong
  | medium
  | weak
  | unknown
deriving DecidableEq

/-- Source `get_hair_strand_class_name(class_name)` (utils.py lines 292-316):
empty name → unknown, otherwise case-insensitive substring match for
"strong", then "medium", then "weak", in that priority order. -/
def get_hair_strand_class_name (class_name : List Char) : HairClass :=
  if class_name = [] then HairClass.unknown
  else
    let class_lower := class_name.map to_lower_char
    if contains_sub class_lower ("strong".toList) then HairClass.strong
    else if contains_sub class_lower ("medium".toList) then HairClass.medium
    else if contains_sub class_lower ("weak".toList) then HairClass.weak
    else HairClass.unknown

/-- One detection record as consumed by the report generator: its `class`
string (modelled as a character list) and its `confidence`. -/
structure Detection : Type where
  className : List Char
  confidence : ℚ
deriving DecidableEq

/-- Python `min(list)` for a nonempty rational list (0 for empty, unreached). -/
def list_min : List ℚ → ℚ
  | [] => 0
  | x :: xs => xs.foldl (fun a b => if b < a then b else a) x

/-- Python `max(list)` for a nonempty rational list (0 for empty, unreached). -/
def list_max : List ℚ → ℚ
  | [] => 0
  | x :: xs => xs.foldl (fun a b => if a < b then b else a) x

/-- The SQUARE of source `calculate_std(values)` (triangle_detector.py lines
316-323).  Python returns `variance ** 0.5`, irrational in general; the model
stores the variance (the square of the standard deviation) exactly.  As
`sqrt` is a strictly monotone bijection on nonnegative reals, every claim
about the standard deviation is settled by its square; in particular the
result is 0 iff the modelled value is 0, and for fewer than 2 samples both
are 0. -/
def calculate_std_sq (values : List ℚ) : ℚ :=
  if values.length < 2 then 0
  else
    let mean := values.sum / (values.length : ℚ)
    ((values.map (fun x => (x - mean) ^ 2)).sum) / (values.length : ℚ)

/-- A `confidence_stats` dictionary entry.  Each Python key is an Option
field: a key absent from the dictionary is none.  The `std` field stores the
SQUARE of the Python value (see `calculate_std_sq`). -/
structure StatsEntry : Type where
  average : Option ℚ
  min : Option ℚ
  max : Option ℚ
  std : Option ℚ
  count : Option ℕ
deriving DecidableEq

/-- The `confidence_stats` dictionary: the full report populates all four
keys, the empty-detections report has the empty dictionary (all none). -/
structure ConfStats : Type where
  overall : Option StatsEntry
  strong : Option StatsEntry
  medium : Option StatsEntry
  weak : Option StatsEntry
deriving DecidableEq

/-- The report dictionary of `generate_hair_analysis_report`.  Keys that are
absent from one of the two return branches are Option fields.  The ratio
strings "a:b" are modelled as the pair (a, b); `class_distribution` only
ever holds the empty dictionary, modelled as Unit. -/
structure Report : Type where
  total_count : ℕ
  class_distribution : Option Unit
  class_counts : Option (ℕ × ℕ × ℕ)
  class_percentages : Option (ℚ × ℚ × ℚ)
  confidence_stats : ConfStats
  ratios : Option ((ℕ × ℕ) × (ℕ × ℕ) × ℚ × ℚ × ℚ)
  triangle_analysis : Option (ℕ × ℚ)
  image_info : Option (ℕ × ℕ × ℕ)
  error : Option (List Char)
deriving DecidableEq

/-- The accumulator of the detection loop of `generate_hair_analysis_report`
(utils.py lines 340-356): per-class counters, the overall confidence list and
the per-class confidence lists, in append order. -/
structure AccState : Type where
  strong : ℕ
  medium : ℕ
  weak : ℕ
  confs : List ℚ
  strongC : List ℚ
  mediumC : List ℚ
  weakC : List ℚ
deriving DecidableEq

/-- One iteration of the detection loop (lines 344-356): the confidence is
always appended to the overall list; the class counter and per-class list are
updated only when the mapped class is strong/medium/weak (the Python test
`hair_class in class_counts`). -/
def accumulate_step (st : AccState) (d : Detection) : AccState :=
  let st1 := { st with confs := st.confs ++ [d.confidence] }
  match get_hair_strand_class_name d.className with
  | HairClass.strong =>
    { st1 with strong := st1.strong + 1, strongC := st1.strongC ++ [d.confidence] }
  | HairClass.medium =>
    { st1 with medium := st1.medium + 1, mediumC := st1.mediumC ++ [d.confidence] }
  | HairClass.weak =>
    { st1 with weak := st1.weak + 1, weakC := st1.weakC ++ [d.confidence] }
  | HairClass.unknown => st1

/-- The per-class `confidence_stats` entry (lines 377-391): average/min/max/
count when the class has confidences, zeros with count 0 otherwise; no `std`
key in either case. -/
def class_stats_entry (confs : List ℚ) : StatsEntry :=
  if confs = [] then
    { average := some 0, min := some 0, max := some 0, std := none, count := some 0 }
  else
    { average := some (confs.sum / (confs.length : ℚ))
      min := some (list_min confs)
      max := some (list_max confs)
      std := none
      count := some confs.length }

/-- The `overall` entry of `confidence_stats` (lines 368-373): average, min,
max and std — and no `count` key.  The conditionals mirror the source's
`if confidence_values else 0.0` guards. -/
def overall_stats_entry (confs : List ℚ) : StatsEntry :=
  { average := some (if confs = [] then 0 else confs.sum / (confs.length : ℚ))
    min := some (if confs = [] then 0 else list_min confs)
    max := some (if confs = [] then 0 else list_max confs)
    std := some (if confs = [] then 0 else calculate_std_sq confs)
    count := none }

/-- Source `generate_hair_analysis_report(detections, analysis_results,
image_info)` (utils.py lines 319-434).  Only the length of
`analysis_results` is used by the source; `image_info` is modelled by its
width/height pair. -/
def generate_hair_analysis_report (detections : List Detection)
    (analysis_results : List Unit) (image_info : Option (ℕ × ℕ)) : Report :=
  if detections = [] then
    { total_count := 0
      class_distribution := some ()
      class_counts := none
      class_percentages := none
      confidence_stats := { overall := none, strong := none, medium := none, weak := none }
      ratios := none
      triangle_analysis := none
      image_info := none
      error := some ("No detections found".toList) }
  else
    let st := detections.foldl accumulate_step
      { strong := 0, medium := 0, weak := 0, confs := [],
        strongC := [], mediumC := [], weakC := [] }
    let total_count := st.strong + st.medium + st.weak
    let pct : ℕ → ℚ := fun c =>
      if 0 < total_count then (c : ℚ) / (total_count : ℚ) * 100 else 0
    let confidence_stats : ConfStats :=
      { overall := some (overall_stats_entry st.confs)
        strong := some (class_stats_entry st.strongC)
        medium := some (class_stats_entry st.mediumC)
        weak := some (class_stats_entry st.weakC) }
    let terminal_vellus : ℕ × ℕ :=
      if 0 < st.weak then (st.strong, st.weak) else (st.strong, 0)
    let strong_medium : ℕ × ℕ :=
      if 0 < st.medium then (st.strong, st.medium) else (st.strong, 0)
    let triangle_success_count := analysis_results.length
    let triangle_success_rate : ℚ :=
      if 0 < total_count then (triangle_success_count : ℚ) / (total_count : ℚ) * 100 else 0
    { total_count := total_count
      class_distribution := none
      class_counts := some (st.strong, st.medium, st.weak)
      class_percentages := some (pct st.strong, pct st.medium, pct st.weak)
      confidence_stats := confidence_stats
      ratios := some (terminal_vellus, strong_medium, pct st.strong, pct st.medium, pct st.weak)
      triangle_analysis := some (triangle_success_count, triangle_success_rate)
      image_info := image_info.map (fun wh => (wh.1, wh.2, wh.1 * wh.2))
      error := none }

/-- Strict convexity of the scan stack, stated on the reversed storage used
by `hull_scan_go` (head = top of the Python stack): every three consecutive
stacked points make a strictly counter-clockwise turn in hull order. -/
def StackOK : List Pt → Prop
  | c :: b :: a :: rest => 0 < cross_product_2d a b c ∧ StackOK (b :: a :: rest)
  | _ => True

/-- Spec-side definition, for comparison with the source's `calculate_std`:
the population variance, i.e. the square of the claimed standard deviation
formula sqrt(mean((x-mean)^2)). -/
def population_variance (l : List ℚ) : ℚ :=
  ((l.map (fun x => (x - l.sum / (l.length : ℚ)) ^ 2)).sum) / (l.length : ℚ)

/-! ## Theorems -/

section ConcreteEvaluations

attribute [local semireducible] Rat.add Rat.mul Rat.inv Rat.sub Rat.ofScientific

/-- Claim C1.  The point-in-triangle test actually used by the solver is the
SECOND definition of `point_in_triangle` (line 495), which at runtime shadows
the tolerant first definition (line 153) that the claim describes.  At the
degenerate triangle ((0,0),(1,1),(2,2)) the effective test raises
ZeroDivisionError (modelled `none`) instead of returning false, and at a
point whose barycentric weight is −1e-11 ≥ −1e-10 (which the claim counts as
inside) it returns false.  The shadowed definition behaves exactly as the
claim states on both inputs. -/
theorem point_in_triangle_shadowing_divergence :
    point_in_triangle (0, 0) [(0, 0), (1, 1), (2, 2)] = none ∧
    point_in_triangle (-(1 / 10 ^ 11), 0) [(0, 0), (1, 0), (0, 1)] = some false ∧
    point_in_triangle_shadowed (0, 0) [(0, 0), (1, 1), (2, 2)] = some false ∧
    point_in_triangle_shadowed (-(1 / 10 ^ 11), 0) [(0, 0), (1, 0), (0, 1)] = some true :=
  ⟨by decide, by decide, by decide, by decide⟩

/-- Claim C2.  For the 4-point square, every hull vertex lies outside the
triangle of the other three, so the hull-triple search finds no enclosing
candidate and `smallest_enclosing_triangle` answers with the extreme-point
fallback of `find_minimum_triangle_advanced` — a triangle on three of the
corners that does NOT enclose the fourth corner (0,4), contradicting the
claimed enclosure/minimality of the chosen triangle. -/
theorem smallest_enclosing_triangle_square_not_enclosing :
    enclosing_search [(0, 0), (4, 0), (4, 4), (0, 4)]
        (triples_after (convex_hull [(0, 0), (4, 0), (4, 4), (0, 4)])) none =
      Except.ok none ∧
    smallest_enclosing_triangle [(0, 0), (4, 0), (4, 4), (0, 4)] =
      Except.ok [(0, 0), (4, 0), (4, 4)] ∧
    all_points_in_triangle [(0, 0), (4, 0), (4, 4)] [(0, 0), (4, 0), (4, 4), (0, 4)] =
      some false :=
  ⟨by decide, by decide, by decide⟩

/-- Claim C6.  The effective `convex_hull` (line 351) sorts only by polar
angle; for the anchor (0,0) the points (2,2) and (1,1) have equal angle and
keep their input order — the farther (2,2) is placed before the closer
(1,1), contrary to the claimed closer-first distance tie-break (present only
in the shadowed `convex_hull` of line 116).  As a consequence the produced
hull even retains (1,1), which lies on the closing edge. -/
theorem convex_hull_sort_no_distance_tiebreak :
    polar_key (0, 0) (2, 2) = polar_key (0, 0) (1, 1) ∧
    sq_distance (0, 0) (1, 1) < sq_distance (0, 0) (2, 2) ∧
    sort_by_polar (0, 0) [(2, 2), (1, 1), (3, 0)] = [(3, 0), (2, 2), (1, 1)] ∧
    convex_hull [(0, 0), (2, 2), (1, 1), (3, 0)] = [(0, 0), (3, 0), (2, 2), (1, 1)] :=
  ⟨by decide, by decide, by decide, by decide⟩

/-- Claim C3, counterexample.  The contour [(0,0),(0,0),(1,1)] has 3 points
but only 2 unique points; the claim says `get_smallest_triangle` returns an
absent result, but the source catches the ValueError and answers with the
emergency fallback — the first three contour points. -/
theorem get_smallest_triangle_duplicates_counterexample :
    (dedupSet [(0, 0), (0, 0), (1, 1)]).length = 2 ∧
    get_smallest_triangle [(0, 0), (0, 0), (1, 1)] = some [(0, 0), (0, 0), (1, 1)] :=
  ⟨by decide, by decide⟩

/-- Claim C4, counterexample.  For the collinear contour [(0,0),(1,1),(2,2)]
the solver's last-resort fallback (`points[:3]` in
`find_minimum_triangle_advanced`) returns the three collinear points — a
zero-area triangle delivered to the caller, contradicting the claim that a
degenerate triangle is never returned. -/
theorem get_smallest_triangle_degenerate_counterexample :
    get_smallest_triangle [(0, 0), (1, 1), (2, 2)] = some [(0, 0), (1, 1), (2, 2)] ∧
    triangle_area [(0, 0), (1, 1), (2, 2)] = 0 :=
  ⟨by decide, by decide⟩

/-- Claim C7, counterexample.  A single detection whose class maps to
"unknown" yields total_count = 0, yet the report carries no error marker and
its overall confidence statistics are computed from the detection (average
1/2, not zeroed), contradicting the claim that EVERY total_count = 0 report
carries the marker and zeroed statistics. -/
theorem report_zero_total_without_marker_counterexample :
    (generate_hair_analysis_report [⟨"other".toList, 1 / 2⟩] [] none).total_count = 0 ∧
    (generate_hair_analysis_report [⟨"other".toList, 1 / 2⟩] [] none).error = none ∧
    (generate_hair_analysis_report [⟨"other".toList, 1 / 2⟩] [] none).confidence_stats.overall =
      some { average := some (1 / 2), min := some (1 / 2), max := some (1 / 2),
             std := some 0, count := none } :=
  ⟨by decide, by decide, by decide⟩

/-- Claim C9, counterexample.  In the generated report the `overall`
confidence entry has no `count` key and the per-class entries have no `std`
key, contradicting the claim that every entry provides all five sub-keys. -/
theorem confidence_stats_missing_subkeys_counterexample :
    (generate_hair_analysis_report [⟨"strong_follicle".toList, 9 / 10⟩] [] none).confidence_stats.overall =
      some { average := some (9 / 10), min := some (9 / 10), max := some (9 / 10),
             std := some 0, count := none } ∧
    (generate_hair_analysis_report [⟨"strong_follicle".toList, 9 / 10⟩] [] none).confidence_stats.strong =
      some { average := some (9 / 10), min := some (9 / 10), max := some (9 / 10),
             std := none, count := some 1 } :=
  ⟨by decide, by decide⟩

end ConcreteEvaluations

/-! ### Solver search invariants (claims C3 and C4) -/

theorem min_update_inv {P : List Pt → Prop} {st : Option (List Pt × ℚ)} {t : List Pt}
    (hst : ∀ b c, st = some (b, c) → P b) (ht : P t) :
    ∀ b c, min_update st t = some (b, c) → P b := by
  intro b c h
  unfold min_update at h
  cases st with
  | none =>
    simp only [Option.some.injEq, Prod.mk.injEq] at h
    exact h.1 ▸ ht
  | some p =>
    obtain ⟨bt, ba⟩ := p
    dsimp only at h
    split_ifs at h with hlt
    · simp only [Option.some.injEq, Prod.mk.injEq] at h
      exact h.1 ▸ ht
    · simp only [Option.some.injEq, Prod.mk.injEq] at h
      exact h.1 ▸ hst bt ba rfl

theorem enclosing_step_inv {pts : List Pt} {P : List Pt → Prop}
    {st st2 : Option (List Pt × ℚ)} {t : List Pt}
    (hst : ∀ b c, st = some (b, c) → P b) (ht : P t)
    (h : enclosing_step pts st t = Except.ok st2) :
    ∀ b c, st2 = some (b, c) → P b := by
  unfold enclosing_step at h
  cases hall : all_points_in_triangle t pts with
  | none => rw [hall] at h; exact absurd h (by simp)
  | some ok =>
    rw [hall] at h
    cases ok with
    | false =>
      simp only [Except.ok.injEq] at h
      exact h ▸ hst
    | true =>
      simp only [Except.ok.injEq] at h
      exact h ▸ min_update_inv hst ht

theorem enclosing_search_inv {pts : List Pt} {P : List Pt → Prop} :
    ∀ (ts : List (List Pt)) (st st2 : Option (List Pt × ℚ)),
      (∀ u ∈ ts, P u) → (∀ b c, st = some (b, c) → P b) →
      enclosing_search pts ts st = Except.ok st2 →
      ∀ b c, st2 = some (b, c) → P b := by
  intro ts
  induction ts with
  | nil =>
    intro st st2 _ hst h
    simp only [enclosing_search, Except.ok.injEq] at h
    exact h ▸ hst
  | cons t ts ih =>
    intro st st2 hts hst h
    rw [enclosing_search] at h
    cases hstep : enclosing_step pts st t with
    | error e => rw [hstep] at h; exact absurd h (by simp)
    | ok st1 =>
      rw [hstep] at h
      exact ih st1 st2 (fun u hu => hts u (List.mem_cons_of_mem _ hu))
        (enclosing_step_inv hst (hts t (List.mem_cons_self _ _)) hstep) h

theorem adv_step_inv {pts : List Pt} {p1 p2 p3 : Pt} {st st2 : Option (List Pt × ℚ)}
    (hst : ∀ b c, st = some (b, c) → b.length = 3 ∧ eps10 ≤ triangle_area b)
    (h : adv_step pts p1 p2 st p3 = Except.ok st2) :
    ∀ b c, st2 = some (b, c) → b.length = 3 ∧ eps10 ≤ triangle_area b := by
  simp only [adv_step] at h
  by_cases hskip : p3 = p1 ∨ p3 = p2
  · rw [if_pos hskip] at h
    simp only [Except.ok.injEq] at h
    exact h ▸ hst
  · rw [if_neg hskip] at h
    by_cases harea : triangle_area [p1, p2, p3] < eps10
    · rw [if_pos harea] at h
      simp only [Except.ok.injEq] at h
      exact h ▸ hst
    · rw [if_neg harea] at h
      cases hall : all_points_in_triangle [p1, p2, p3] pts with
      | none => rw [hall] at h; exact absurd h (by simp)
      | some ok =>
        rw [hall] at h
        cases ok with
        | false =>
          simp only [Except.ok.injEq] at h
          exact h ▸ hst
        | true =>
          simp only [Except.ok.injEq] at h
          exact h ▸ min_update_inv hst ⟨rfl, not_lt.mp harea⟩

theorem adv_inner_inv {pts : List Pt} {p1 p2 : Pt} :
    ∀ (cs : List Pt) (st st2 : Option (List Pt × ℚ)),
      (∀ b c, st = some (b, c) → b.length = 3 ∧ eps10 ≤ triangle_area b) →
      adv_inner pts p1 p2 cs st = Except.ok st2 →
      ∀ b c, st2 = some (b, c) → b.length = 3 ∧ eps10 ≤ triangle_area b := by
  intro cs
  induction cs with
  | nil =>
    intro st st2 hst h
    simp only [adv_inner, Except.ok.injEq] at h
    exact h ▸ hst
  | cons p3 cs ih =>
    intro st st2 hst h
    rw [adv_inner] at h
    cases hstep : adv_step pts p1 p2 st p3 with
    | error e => rw [hstep] at h; exact absurd h (by simp)
    | ok st1 =>
      rw [hstep] at h
      exact ih st1 st2 (adv_step_inv hst hstep) h

theorem adv_pairs_inv {pts cands : List Pt} :
    ∀ (prs : List (Pt × Pt)) (st st2 : Option (List Pt × ℚ)),
      (∀ b c, st = some (b, c) → b.length = 3 ∧ eps10 ≤ triangle_area b) →
      adv_pairs pts cands prs st = Except.ok st2 →
      ∀ b c, st2 = some (b, c) → b.length = 3 ∧ eps10 ≤ triangle_area b := by
  intro prs
  induction prs with
  | nil =>
    intro st st2 hst h
    simp only [adv_pairs, Except.ok.injEq] at h
    exact h ▸ hst
  | cons pr prs ih =>
    intro st st2 hst h
    rw [adv_pairs] at h
    cases hstep : adv_inner pts pr.1 pr.2 cands st with
    | error e => rw [hstep] at h; exact absurd h (by simp)
    | ok st1 =>
      rw [hstep] at h
      exact ih st1 st2 (adv_inner_inv cands st st1 hst hstep) h

/-- Claim C4 (amended part): any triangle selected by the candidate search of
`find_minimum_triangle_advanced` has area at least 1e-10 — degenerate
candidates are excluded from consideration during the search.  (The claim's
further assertion that a degenerate triangle is never returned to the caller
is refuted by `get_smallest_triangle_degenerate_counterexample`: the
fallback paths perform no area check.) -/
theorem adv_search_excludes_degenerate (pts cands : List Pt) (prs : List (Pt × Pt))
    (t : List Pt) (a : ℚ)
    (h : adv_pairs pts cands prs none = Except.ok (some (t, a))) :
    eps10 ≤ triangle_area t :=
  (adv_pairs_inv prs none (some (t, a)) (fun b c hb => by simp at hb) h t a rfl).2

theorem triples_after_mem_length :
    ∀ (l : List Pt) (t : List Pt), t ∈ triples_after l → t.length = 3 := by
  intro l
  induction l with
  | nil => intro t h; simp [triples_after] at h
  | cons x xs ih =>
    intro t h
    simp only [triples_after, List.mem_append, List.mem_map] at h
    rcases h with ⟨pq, _, rfl⟩ | h
    · rfl
    · exact ih t h

theorem find_minimum_triangle_advanced_ok_length {pts hull t : List Pt}
    (hpts : 3 ≤ pts.length)
    (h : find_minimum_triangle_advanced pts hull = Except.ok t) : t.length = 3 := by
  simp only [find_minimum_triangle_advanced] at h
  cases hsearch : adv_pairs pts (hull ++ pts) (pairs_after hull) none with
  | error e => rw [hsearch] at h; exact absurd h (by simp)
  | ok st =>
    rw [hsearch] at h
    cases st with
    | some p =>
      obtain ⟨bt, ba⟩ := p
      simp only [Except.ok.injEq] at h
      rw [← h]
      exact (adv_pairs_inv (pairs_after hull) none (some (bt, ba))
        (fun b c hb => by simp at hb) hsearch bt ba rfl).1
    | none =>
      cases pts with
      | nil => simp at hpts
      | cons p rest =>
        dsimp only at h
        split_ifs at h with hex
        · simp only [Except.ok.injEq] at h
          rw [← h, List.length_take]
          omega
        · simp only [Except.ok.injEq] at h
          rw [← h, List.length_take]
          simp only [List.length_cons] at hpts ⊢
          omega

theorem smallest_enclosing_triangle_ok_length {points t : List Pt}
    (h : smallest_enclosing_triangle points = Except.ok t) : t.length = 3 := by
  simp only [smallest_enclosing_triangle] at h
  by_cases h1 : points.length < 3
  · rw [if_pos h1] at h; exact absurd h (by simp)
  · rw [if_neg h1] at h
    by_cases h2 : (dedupSet points).length < 3
    · rw [if_pos h2] at h; exact absurd h (by simp)
    · rw [if_neg h2] at h
      by_cases h3 : (convex_hull (dedupSet points)).length = 3
      · rw [if_pos h3] at h
        simp only [Except.ok.injEq] at h
        rw [← h]
        exact h3
      · rw [if_neg h3] at h
        cases hs : enclosing_search (dedupSet points)
            (triples_after (convex_hull (dedupSet points))) none with
    | error e => rw [hs] at h; exact absurd h (by simp)
    | ok st =>
      rw [hs] at h
      cases st with
      | some p =>
        obtain ⟨bt, ba⟩ := p
        simp only [Except.ok.injEq] at h
        rw [← h]
        exact enclosing_search_inv (P := fun u => u.length = 3) _ none (some (bt, ba))
          (fun u hu => triples_after_mem_length _ u hu)
          (fun b c hb => by simp at hb) hs bt ba rfl
      | none =>
        exact find_minimum_triangle_advanced_ok_length (not_lt.mp h2) h

/-- Claim C3 (amended): `get_smallest_triangle` returns an absent result iff
the contour has fewer than 3 points — for 3 or more points that deduplicate
below 3 unique points the emergency fallback answers with the first three
contour points (see `get_smallest_triangle_duplicates_counterexample`) — and
every returned triangle has exactly 3 points. -/
theorem get_smallest_triangle_absent_iff (c : List Pt) :
    (get_smallest_triangle c = none ↔ c.length < 3) ∧
    (∀ t, get_smallest_triangle c = some t → t.length = 3) := by
  unfold get_smallest_triangle
  by_cases hc : c.length < 3
  · simp [hc]
  · simp only [hc, if_false]
    cases hs : smallest_enclosing_triangle c with
    | ok tri =>
      constructor
      · simp [hc]
      · intro t ht
        simp only [Option.some.injEq] at ht
        rw [← ht]
        exact smallest_enclosing_triangle_ok_length hs
    | error e =>
      have h3 : 3 ≤ c.length := not_lt.mp hc
      simp only [h3, if_true]
      constructor
      · simp [hc]
      · intro t ht
        simp only [Option.some.injEq] at ht
        rw [← ht, List.length_take]
        omega

section SolverWitnesses

attribute [local semireducible] Rat.add Rat.mul Rat.inv Rat.sub Rat.ofScientific

theorem adv_search_excludes_degenerate_witness :
    eps10 ≤ triangle_area [(0, 0), (4, 0), (1, 1)] :=
  adv_search_excludes_degenerate [(1, 1)] ([(0, 0), (4, 0)] ++ [(1, 1)])
    (pairs_after [(0, 0), (4, 0)]) [(0, 0), (4, 0), (1, 1)] 2 (by decide)

theorem get_smallest_triangle_absent_iff_witness :
    ([(0, 0), (4, 0), (2, 3)] : List Pt).length = 3 :=
  (get_smallest_triangle_absent_iff [(0, 0), (4, 0), (2, 3)]).2
    [(0, 0), (4, 0), (2, 3)] (by decide)

end SolverWitnesses

/-! ### Report generator (claims C7, C9, C10) -/

theorem accumulate_fold_spec :
    ∀ (dets : List Detection) (st : AccState),
      (dets.foldl accumulate_step st).strong =
        st.strong + dets.countP
          (fun d => decide (get_hair_strand_class_name d.className = HairClass.strong)) ∧
      (dets.foldl accumulate_step st).medium =
        st.medium + dets.countP
          (fun d => decide (get_hair_strand_class_name d.className = HairClass.medium)) ∧
      (dets.foldl accumulate_step st).weak =
        st.weak + dets.countP
          (fun d => decide (get_hair_strand_class_name d.className = HairClass.weak)) ∧
      (dets.foldl accumulate_step st).confs = st.confs ++ dets.map Detection.confidence := by
  intro dets
  induction dets with
  | nil => intro st; simp
  | cons d dets ih =>
    intro st
    obtain ⟨ih1, ih2, ih3, ih4⟩ := ih (accumulate_step st d)
    simp only [List.foldl_cons, List.countP_cons, List.map_cons]
    rw [ih1, ih2, ih3, ih4]
    cases hcl : get_hair_strand_class_name d.className <;>
      simp [accumulate_step, hcl] <;> omega

theorem countP_not_unknown (dets : List Detection) :
    dets.countP (fun d => decide (get_hair_strand_class_name d.className ≠ HairClass.unknown)) =
      dets.countP (fun d => decide (get_hair_strand_class_name d.className = HairClass.strong)) +
      dets.countP (fun d => decide (get_hair_strand_class_name d.className = HairClass.medium)) +
      dets.countP (fun d => decide (get_hair_strand_class_name d.className = HairClass.weak)) := by
  induction dets with
  | nil => simp
  | cons d dets ih =>
    simp only [List.countP_cons, ih]
    cases hcl : get_hair_strand_class_name d.className <;> simp [hcl] <;> omega

/-- Claim C10: the report's total_count counts exactly the detections whose
label maps to strong/medium/weak (an "unknown" detection is excluded from
total_count and class_counts, and the triangle-success-rate denominator is
that same total_count), while the overall confidence statistics average over
ALL detections, the unknown one included. -/
theorem report_total_count_excludes_unknown (dets : List Detection) (ar : List Unit)
    (img : Option (ℕ × ℕ)) (h : dets ≠ []) :
    (generate_hair_analysis_report dets ar img).total_count =
      dets.countP (fun d => decide (get_hair_strand_class_name d.className ≠ HairClass.unknown)) ∧
    (generate_hair_analysis_report dets ar img).class_counts =
      some (dets.countP (fun d => decide (get_hair_strand_class_name d.className = HairClass.strong)),
            dets.countP (fun d => decide (get_hair_strand_class_name d.className = HairClass.medium)),
            dets.countP (fun d => decide (get_hair_strand_class_name d.className = HairClass.weak))) ∧
    (generate_hair_analysis_report dets ar img).triangle_analysis =
      some (ar.length,
        if 0 < (generate_hair_analysis_report dets ar img).total_count then
          (ar.length : ℚ) / ((generate_hair_analysis_report dets ar img).total_count : ℚ) * 100
        else 0) ∧
    (∃ so : StatsEntry,
      (generate_hair_analysis_report dets ar img).confidence_stats.overall = some so ∧
      so.average = some ((dets.map Detection.confidence).sum / (dets.length : ℚ))) := by
  obtain ⟨h1, h2, h3, h4⟩ := accumulate_fold_spec dets
    { strong := 0, medium := 0, weak := 0, confs := [], strongC := [], mediumC := [], weakC := [] }
  have hmap : dets.map Detection.confidence ≠ [] := by
    simpa [List.map_eq_nil_iff] using h
  simp only [generate_hair_analysis_report, if_neg h]
  refine ⟨?_, ?_, ?_, ?_⟩
  · simp only [h1, h2, h3, countP_not_unknown]
    omega
  · simp [h1, h2, h3]
  · simp [h1, h2, h3]
  · refine ⟨overall_stats_entry (dets.map Detection.confidence), ?_, ?_⟩
    · simp only [h4, List.nil_append]
    · simp only [overall_stats_entry, if_neg hmap, List.length_map]

/-- Claim C9 (amended): for every non-empty batch the report's
confidence_stats has all four entries; the overall entry provides average,
min, max and std but no count, each per-class entry provides average, min,
max and count but no std, and the std value is the population standard
deviation (modelled by its square, see `calculate_std_sq`), 0 for fewer than
2 samples. -/
theorem confidence_stats_shape (dets : List Detection) (ar : List Unit)
    (img : Option (ℕ × ℕ)) (h : dets ≠ []) :
    ∃ so ss sm sw : StatsEntry,
      (generate_hair_analysis_report dets ar img).confidence_stats =
        { overall := some so, strong := some ss, medium := some sm, weak := some sw } ∧
      so.average.isSome ∧ so.min.isSome ∧ so.max.isSome ∧ so.count = none ∧
      so.std = some (calculate_std_sq (dets.map Detection.confidence)) ∧
      (∀ e : StatsEntry, e = ss ∨ e = sm ∨ e = sw →
        e.average.isSome ∧ e.min.isSome ∧ e.max.isSome ∧ e.count.isSome ∧ e.std = none) ∧
      (dets.length < 2 → calculate_std_sq (dets.map Detection.confidence) = 0) ∧
      (2 ≤ dets.length →
        calculate_std_sq (dets.map Detection.confidence) =
          population_variance (dets.map Detection.confidence)) := by
  obtain ⟨h1, h2, h3, h4⟩ := accumulate_fold_spec dets
    { strong := 0, medium := 0, weak := 0, confs := [], strongC := [], mediumC := [], weakC := [] }
  have hmap : dets.map Detection.confidence ≠ [] := by
    simpa [List.map_eq_nil_iff] using h
  have hcse : ∀ c : List ℚ,
      (class_stats_entry c).average.isSome ∧ (class_stats_entry c).min.isSome ∧
      (class_stats_entry c).max.isSome ∧ (class_stats_entry c).count.isSome ∧
      (class_stats_entry c).std = none := by
    intro c
    unfold class_stats_entry
    split_ifs <;> simp
  simp only [generate_hair_analysis_report, if_neg h, h4, List.nil_append]
  refine ⟨_, _, _, _, rfl, ?_, ?_, ?_, ?_, ?_, ?_, ?_, ?_⟩
  · simp [overall_stats_entry]
  · simp [overall_stats_entry]
  · simp [overall_stats_entry]
  · simp [overall_stats_entry]
  · simp only [overall_stats_entry, if_neg hmap]
  · intro e he
    rcases he with rfl | rfl | rfl <;> exact hcse _
  · intro hlen
    unfold calculate_std_sq
    rw [if_pos]
    simpa using hlen
  · intro hlen
    unfold calculate_std_sq population_variance
    rw [if_neg]
    simp only [List.length_map]
    omega

/-- Claim C7 (amended): the report generator returns the explicit marker
report exactly for an empty detection list; for a non-empty list it never
produces the marker, and even when total_count is 0 it returns normally with
0 percentages and a 0 triangle success rate (the divisions are guarded). -/
theorem report_empty_and_zero_total (dets : List Detection) (ar : List Unit)
    (img : Option (ℕ × ℕ)) :
    (dets = [] →
      generate_hair_analysis_report dets ar img =
        { total_count := 0, class_distribution := some (), class_counts := none,
          class_percentages := none,
          confidence_stats := { overall := none, strong := none, medium := none, weak := none },
          ratios := none, triangle_analysis := none, image_info := none,
          error := some ("No detections found".toList) }) ∧
    (dets ≠ [] →
      (generate_hair_analysis_report dets ar img).error = none ∧
      ((generate_hair_analysis_report dets ar img).total_count = 0 →
        (generate_hair_analysis_report dets ar img).class_percentages = some (0, 0, 0) ∧
        (generate_hair_analysis_report dets ar img).triangle_analysis = some (ar.length, 0))) := by
  constructor
  · intro he
    subst he
    simp [generate_hair_analysis_report]
  · intro hne
    refine ⟨by simp [generate_hair_analysis_report, if_neg hne], ?_⟩
    intro h0
    simp only [generate_hair_analysis_report, if_neg hne] at h0 ⊢
    rw [h0]
    simp

section ReportWitnesses

attribute [local semireducible] Rat.add Rat.mul Rat.inv Rat.sub Rat.ofScientific

theorem report_total_count_excludes_unknown_witness :
    (generate_hair_analysis_report [⟨"other".toList, 1 / 2⟩, ⟨"strong_follicle".toList, 1⟩]
        [()] none).total_count =
      ([⟨"other".toList, 1 / 2⟩, ⟨"strong_follicle".toList, 1⟩] : List Detection).countP
        (fun d => decide (get_hair_strand_class_name d.className ≠ HairClass.unknown)) :=
  (report_total_count_excludes_unknown
    [⟨"other".toList, 1 / 2⟩, ⟨"strong_follicle".toList, 1⟩] [()] none (by decide)).1

theorem confidence_stats_shape_witness :
    (generate_hair_analysis_report [⟨"strong_follicle".toList, 9 / 10⟩] []
        none).confidence_stats.overall.isSome := by
  obtain ⟨so, ss, sm, sw, hcs, _⟩ :=
    confidence_stats_shape [⟨"strong_follicle".toList, 9 / 10⟩] [] none (by decide)
  rw [hcs]
  rfl

theorem report_empty_and_zero_total_witness :
    (generate_hair_analysis_report [⟨"other".toList, 1 / 2⟩] [] none).class_percentages =
      some (0, 0, 0) ∧
    (generate_hair_analysis_report [⟨"other".toList, 1 / 2⟩] [] none).triangle_analysis =
      some (0, 0) := by
  have := ((report_empty_and_zero_total [⟨"other".toList, 1 / 2⟩] [] none).2
    (by decide)).2 (by decide)
  simpa using this

end ReportWitnesses

/-! ### Orientation extractor (claim C8) -/

/-- Claim C8: for a 3-point input, `find_shortest_side_and_apex` selects the
edge of minimum length (edge i joins vertices i and (i+1) mod 3, exact ties
going to the lowest-indexed edge — every strictly earlier edge is strictly
longer), returns the midpoint of that edge together with the vertex at index
(i+2) mod 3, and returns an absent result exactly when the input is not 3
points.  Lengths are compared through their squares, see `sq_distance`. -/
theorem find_shortest_side_and_apex_spec (t : List Pt) :
    (find_shortest_side_and_apex t = none ↔ t.length ≠ 3) ∧
    (t.length = 3 →
      ∃ i : ℕ, i < 3 ∧ (∀ j, j < 3 → edge_sq t i ≤ edge_sq t j) ∧
        (∀ j, j < i → edge_sq t i < edge_sq t j) ∧
        find_shortest_side_and_apex t =
          some ((((tri_vertex t i).1 + (tri_vertex t (i + 1)).1) / 2,
                 ((tri_vertex t i).2 + (tri_vertex t (i + 1)).2) / 2),
                tri_vertex t (i + 2))) := by
  match t with
  | [] => simp [find_shortest_side_and_apex]
  | [a] => simp [find_shortest_side_and_apex]
  | [a, b] => simp [find_shortest_side_and_apex]
  | p0 :: p1 :: p2 :: p3 :: rest => simp [find_shortest_side_and_apex]
  | [p0, p1, p2] =>
    constructor
    · simp [find_shortest_side_and_apex]
    · intro _
      have e0 : edge_sq [p0, p1, p2] 0 = sq_distance p0 p1 := rfl
      have e1 : edge_sq [p0, p1, p2] 1 = sq_distance p1 p2 := rfl
      have e2 : edge_sq [p0, p1, p2] 2 = sq_distance p2 p0 := rfl
      by_cases h10 : sq_distance p1 p2 < sq_distance p0 p1
      · by_cases h21 : sq_distance p2 p0 < sq_distance p1 p2
        · refine ⟨2, by omega, ?_, ?_, ?_⟩
          · intro j hj
            interval_cases j <;> simp only [e0, e1, e2] <;> linarith
          · intro j hj
            interval_cases j <;> simp only [e0, e1, e2] <;> linarith
          · show find_shortest_side_and_apex [p0, p1, p2] =
              some (((p2.1 + p0.1) / 2, (p2.2 + p0.2) / 2), p1)
            simp [find_shortest_side_and_apex, h10, h21]
        · refine ⟨1, by omega, ?_, ?_, ?_⟩
          · intro j hj
            interval_cases j <;> simp only [e0, e1, e2] <;> linarith
          · intro j hj
            interval_cases j; simp only [e0, e1, e2]; linarith
          · show find_shortest_side_and_apex [p0, p1, p2] =
              some (((p1.1 + p2.1) / 2, (p1.2 + p2.2) / 2), p0)
            simp [find_shortest_side_and_apex, h10, h21]
      · by_cases h20 : sq_distance p2 p0 < sq_distance p0 p1
        · refine ⟨2, by omega, ?_, ?_, ?_⟩
          · intro j hj
            interval_cases j <;> simp only [e0, e1, e2] <;> linarith
          · intro j hj
            interval_cases j <;> simp only [e0, e1, e2] <;> linarith
          · show find_shortest_side_and_apex [p0, p1, p2] =
              some (((p2.1 + p0.1) / 2, (p2.2 + p0.2) / 2), p1)
            simp [find_shortest_side_and_apex, h10, h20]
        · refine ⟨0, by omega, ?_, ?_, ?_⟩
          · intro j hj
            interval_cases j <;> simp only [e0, e1, e2] <;> linarith
          · intro j hj
            omega
          · show find_shortest_side_and_apex [p0, p1, p2] =
              some (((p0.1 + p1.1) / 2, (p0.2 + p1.2) / 2), p2)
            simp [find_shortest_side_and_apex, h10, h20]

theorem find_shortest_side_and_apex_spec_witness :
    ∃ i : ℕ, i < 3 ∧
      (∀ j, j < 3 →
        edge_sq [(0, 0), (4, 0), (2, 3)] i ≤ edge_sq [(0, 0), (4, 0), (2, 3)] j) ∧
      (∀ j, j < i →
        edge_sq [(0, 0), (4, 0), (2, 3)] i < edge_sq [(0, 0), (4, 0), (2, 3)] j) ∧
      find_shortest_side_and_apex [(0, 0), (4, 0), (2, 3)] =
        some ((((tri_vertex [(0, 0), (4, 0), (2, 3)] i).1 +
                  (tri_vertex [(0, 0), (4, 0), (2, 3)] (i + 1)).1) / 2,
               ((tri_vertex [(0, 0), (4, 0), (2, 3)] i).2 +
                  (tri_vertex [(0, 0), (4, 0), (2, 3)] (i + 1)).2) / 2),
              tri_vertex [(0, 0), (4, 0), (2, 3)] (i + 2)) :=
  (find_shortest_side_and_apex_spec [(0, 0), (4, 0), (2, 3)]).2 rfl

/-! ### Convex hull idempotence (claim C5) -/

theorem pop_stack_suffix (p : Pt) : ∀ l : List Pt, (pop_stack p l).IsSuffix l := by
  intro l
  match l with
  | [] => exact List.suffix_refl _
  | [x] => exact List.suffix_refl _
  | b :: a :: rest =>
    rw [pop_stack]
    split_ifs with hc
    · exact (pop_stack_suffix p (a :: rest)).trans (List.suffix_cons b (a :: rest))
    · exact List.suffix_refl _

theorem pop_stack_ne_nil (p : Pt) : ∀ l : List Pt, l ≠ [] → pop_stack p l ≠ [] := by
  intro l
  match l with
  | [] => intro h; exact absurd rfl h
  | [x] => intro _; show ([x] : List Pt) ≠ []; simp
  | b :: a :: rest =>
    intro _
    rw [pop_stack]
    split_ifs with hc
    · exact pop_stack_ne_nil p (a :: rest) (by simp)
    · simp

theorem pop_stack_pos (p : Pt) :
    ∀ (l : List Pt) (b a : Pt) (t : List Pt),
      pop_stack p l = b :: a :: t → 0 < cross_product_2d a b p := by
  intro l
  match l with
  | [] => intro b a t h; exact List.noConfusion (h : ([] : List Pt) = b :: a :: t)
  | [x] =>
    intro b a t h
    have h' : ([x] : List Pt) = b :: a :: t := h
    injection h' with h1 h2
    exact List.noConfusion h2
  | b0 :: a0 :: rest =>
    intro b a t h
    rw [pop_stack] at h
    split_ifs at h with hc
    · exact pop_stack_pos p (a0 :: rest) b a t h
    · injection h with h1 h2
      injection h2 with h2 h3
      subst h1; subst h2
      exact lt_of_not_le hc

theorem stackOK_tail {x : Pt} {l : List Pt} (h : StackOK (x :: l)) : StackOK l := by
  match l with
  | [] => trivial
  | [y] => trivial
  | y :: z :: rest => exact h.2

theorem stackOK_suffix : ∀ {l' l : List Pt}, l'.IsSuffix l → StackOK l → StackOK l' := by
  intro l' l h hok
  obtain ⟨pre, rfl⟩ := h
  induction pre with
  | nil => exact hok
  | cons x pre ih => exact ih (stackOK_tail hok)

theorem stackOK_push {p : Pt} {l : List Pt} (hok : StackOK l)
    (htop : ∀ b a t, l = b :: a :: t → 0 < cross_product_2d a b p) :
    StackOK (p :: l) := by
  match l with
  | [] => trivial
  | [x] => trivial
  | b :: a :: rest => exact ⟨htop b a rest rfl, hok⟩

theorem scan_go_stackOK : ∀ (rest acc : List Pt), StackOK acc → StackOK (hull_scan_go acc rest) := by
  intro rest
  induction rest with
  | nil => intro acc h; exact h
  | cons p ps ih =>
    intro acc h
    rw [hull_scan_go]
    refine ih _ (stackOK_push ?_ ?_)
    · exact stackOK_suffix (pop_stack_suffix p acc) h
    · intro b a t hb
      exact pop_stack_pos p acc b a t hb

theorem pop_stack_getLast? (p : Pt) :
    ∀ l : List Pt, l ≠ [] → (pop_stack p l).getLast? = l.getLast? := by
  intro l
  match l with
  | [] => intro h; exact absurd rfl h
  | [x] => intro _; rfl
  | b :: a :: rest =>
    intro _
    rw [pop_stack]
    split_ifs with hc
    · rw [pop_stack_getLast? p (a :: rest) (by simp), List.getLast?_cons_cons]
    · rfl

theorem scan_go_ne_nil : ∀ (rest acc : List Pt), acc ≠ [] → hull_scan_go acc rest ≠ [] := by
  intro rest
  induction rest with
  | nil => intro acc h; exact h
  | cons p ps ih =>
    intro acc h
    rw [hull_scan_go]
    exact ih _ (by simp)

theorem scan_go_getLast? :
    ∀ (rest acc : List Pt), acc ≠ [] → (hull_scan_go acc rest).getLast? = acc.getLast? := by
  intro rest
  induction rest with
  | nil => intro acc _; rfl
  | cons p ps ih =>
    intro acc hacc
    rw [hull_scan_go, ih _ (by simp)]
    cases hp : pop_stack p acc with
    | nil => exact absurd hp (pop_stack_ne_nil p acc hacc)
    | cons y ys =>
      rw [List.getLast?_cons_cons, ← hp, pop_stack_getLast? p acc hacc]

theorem scan_go_sublist :
    ∀ (rest acc : List Pt), (hull_scan_go acc rest).Sublist (rest.reverse ++ acc) := by
  intro rest
  induction rest with
  | nil =>
    intro acc
    rw [hull_scan_go, List.reverse_nil, List.nil_append]
  | cons p ps ih =>
    intro acc
    rw [hull_scan_go]
    have h1 := ih (p :: pop_stack p acc)
    have h2 : (p :: pop_stack p acc).Sublist (p :: acc) :=
      ((pop_stack_suffix p acc).sublist).cons₂ p
    have h3 : (ps.reverse ++ (p :: pop_stack p acc)).Sublist (ps.reverse ++ (p :: acc)) :=
      List.Sublist.append_left h2 _
    have h4 : (p :: ps).reverse ++ acc = ps.reverse ++ (p :: acc) := by
      rw [List.reverse_cons, List.append_assoc, List.singleton_append]
    rw [h4]
    exact h1.trans h3

theorem scan_rebuild :
    ∀ (Mrev acc : List Pt), acc ≠ [] → StackOK (Mrev.reverse ++ acc) →
      hull_scan_go acc Mrev = Mrev.reverse ++ acc := by
  intro Mrev
  induction Mrev with
  | nil => intro acc _ _; simp [hull_scan_go]
  | cons p ps ih =>
    intro acc hacc hok
    have hok' : StackOK (ps.reverse ++ (p :: acc)) := by
      have : (p :: ps).reverse ++ acc = ps.reverse ++ (p :: acc) := by
        rw [List.reverse_cons, List.append_assoc, List.singleton_append]
      rw [this] at hok
      exact hok
    have hpop : pop_stack p acc = acc := by
      cases acc with
      | nil => exact absurd rfl hacc
      | cons x xs =>
        cases xs with
        | nil => rfl
        | cons y ys =>
          have hsuf : (p :: x :: y :: ys).IsSuffix (ps.reverse ++ (p :: x :: y :: ys)) :=
            ⟨ps.reverse, rfl⟩
          have hOK3 : StackOK (p :: x :: y :: ys) := stackOK_suffix hsuf hok'
          have hpos : 0 < cross_product_2d y x p := hOK3.1
          rw [pop_stack, if_neg (not_le.mpr hpos)]
    rw [hull_scan_go, hpop, ih (p :: acc) (by simp) hok']
    rw [List.reverse_cons, List.append_assoc, List.singleton_append]

theorem close_points_comm (p q : Pt) : close_points p q = close_points q p := by
  simp only [close_points]
  rw [abs_sub_comm p.1 q.1, abs_sub_comm p.2 q.2]

theorem close_points_self (p : Pt) : close_points p p = true := by
  simp only [close_points, sub_self, abs_zero, Bool.and_eq_true, decide_eq_true_eq]
  constructor <;> · rw [eps9]; norm_num

theorem dedup_close_go_pairwise :
    ∀ (l acc : List Pt), acc.Pairwise (fun p q => close_points p q = false) →
      (dedup_close_go acc l).Pairwise (fun p q => close_points p q = false) := by
  intro l
  induction l with
  | nil => intro acc h; exact h
  | cons p ps ih =>
    intro acc hacc
    rw [dedup_close_go]
    split_ifs with hmem
    · exact ih _ hacc
    · refine ih _ ?_
      rw [List.pairwise_append]
      refine ⟨hacc, by simp, ?_⟩
      intro a ha b hb
      simp only [List.mem_singleton] at hb
      rw [hb, close_points_comm]
      have hall : ∀ e ∈ acc, ¬ (close_points p e = true) := by
        intro e he hce
        exact hmem (List.any_eq_true.mpr ⟨e, he, hce⟩)
      simpa using hall a ha

theorem dedup_close_go_append :
    ∀ (l acc : List Pt), l.Pairwise (fun p q => close_points p q = false) →
      (∀ p ∈ l, ∀ e ∈ acc, close_points p e = false) →
      dedup_close_go acc l = acc ++ l := by
  intro l
  induction l with
  | nil => intro acc _ _; simp [dedup_close_go]
  | cons p ps ih =>
    intro acc hpair hcross
    rw [dedup_close_go]
    have hmem : ¬ (acc.any (fun e => close_points p e) = true) := by
      intro hany
      obtain ⟨e, he, hce⟩ := List.any_eq_true.mp hany
      rw [hcross p (List.mem_cons_self _ _) e he] at hce
      exact Bool.noConfusion hce
    rw [if_neg hmem, ih (acc ++ [p]) hpair.of_cons]
    · rw [List.append_assoc, List.singleton_append]
    · intro q hq e he
      rcases List.mem_append.mp he with he' | he'
      · exact hcross q (List.mem_cons_of_mem _ hq) e he'
      · simp only [List.mem_singleton] at he'
        subst he'
        rw [close_points_comm]
        exact List.rel_of_pairwise_cons hpair hq

theorem dedup_close_pairwise (l : List Pt) :
    (dedup_close l).Pairwise (fun p q => close_points p q = false) :=
  dedup_close_go_pairwise l [] (by simp)

theorem dedup_close_id {l : List Pt}
    (h : l.Pairwise (fun p q => close_points p q = false)) : dedup_close l = l := by
  unfold dedup_close
  rw [dedup_close_go_append l [] h (by simp)]
  rfl

theorem pairwise_close_nodup {l : List Pt}
    (h : l.Pairwise (fun p q => close_points p q = false)) : l.Nodup := by
  refine h.imp ?_
  intro a b hab heq
  subst heq
  rw [close_points_self a] at hab
  exact Bool.noConfusion hab

theorem min_key_by_mem (f : Pt → Lex (ℚ × ℚ)) :
    ∀ (l : List Pt) (p : Pt), min_key_by f p l ∈ p :: l := by
  intro l
  induction l with
  | nil => intro p; simp [min_key_by]
  | cons q qs ih =>
    intro p
    have h := ih (if f q < f p then q else p)
    simp only [min_key_by, List.foldl_cons] at h ⊢
    rcases List.mem_cons.mp h with h' | h'
    · rw [h']
      split_ifs <;> simp
    · simp [h']

theorem min_key_by_le (f : Pt → Lex (ℚ × ℚ)) :
    ∀ (l : List Pt) (p : Pt) (q : Pt), q ∈ p :: l → f (min_key_by f p l) ≤ f q := by
  intro l
  induction l with
  | nil =>
    intro p q hq
    simp only [List.mem_singleton] at hq
    subst hq
    exact le_refl _
  | cons x xs ih =>
    intro p q hq
    have hstep : f (if f x < f p then x else p) ≤ f p := by
      split_ifs with h
      · exact le_of_lt h
      · exact le_refl _
    have hstepx : f (if f x < f p then x else p) ≤ f x := by
      split_ifs with h
      · exact le_refl _
      · exact not_lt.mp h
    have hmin : f (min_key_by f (if f x < f p then x else p) xs) ≤
        f (if f x < f p then x else p) :=
      ih _ _ (List.mem_cons_self _ _)
    rcases List.mem_cons.mp hq with h' | h'
    · subst h'
      simp only [min_key_by, List.foldl_cons]
      exact le_trans hmin hstep
    · rcases List.mem_cons.mp h' with h'' | h''
      · subst h''
        simp only [min_key_by, List.foldl_cons]
        exact le_trans hmin hstepx
      · simp only [min_key_by, List.foldl_cons]
        exact ih _ _ (List.mem_cons_of_mem _ h'')

theorem anchor_key_inj {p q : Pt} (h : anchor_key p = anchor_key q) : p = q := by
  unfold anchor_key at h
  have h2 : ((p.2, p.1) : ℚ × ℚ) = (q.2, q.1) := toLex.injective h
  injection h2 with ha hb
  exact Prod.ext hb ha

theorem start_point_mem : ∀ {l : List Pt}, l ≠ [] → start_point l ∈ l := by
  intro l h
  match l with
  | [] => exact absurd rfl h
  | p :: rest => exact min_key_by_mem anchor_key rest p

theorem start_point_le : ∀ {l : List Pt} {q : Pt}, q ∈ l →
    anchor_key (start_point l) ≤ anchor_key q := by
  intro l q h
  match l with
  | [] => exact absurd h (by simp)
  | p :: rest => exact min_key_by_le anchor_key rest p q h

theorem sorted_sort_by_polar (s : Pt) (l : List Pt) :
    List.Sorted (fun p q => polar_key s p ≤ polar_key s q) (sort_by_polar s l) := by
  haveI : IsTotal Pt (fun p q => polar_key s p ≤ polar_key s q) :=
    ⟨fun a b => le_total (polar_key s a) (polar_key s b)⟩
  haveI : IsTrans Pt (fun p q => polar_key s p ≤ polar_key s q) :=
    ⟨fun a b c hab hbc => le_trans hab hbc⟩
  exact List.sorted_insertionSort _ l

theorem filter_ne_head {a : Pt} {T : List Pt} (h : a ∉ T) :
    (a :: T).filter (fun p => decide (p ≠ a)) = T := by
  rw [List.filter_cons]
  have hd : (decide (a ≠ a)) = false := by simp
  rw [hd]
  simp only [Bool.false_eq_true, if_false]
  rw [List.filter_eq_self]
  intro p hp
  simp only [decide_eq_true_eq]
  intro he
  exact h (he ▸ hp)

theorem convex_hull_main_branch_fixed (U : List Pt)
    (hUpair : U.Pairwise (fun p q => close_points p q = false))
    (hUlen : ¬ U.length < 3) :
    convex_hull ((hull_scan_go [start_point U]
      (sort_by_polar (start_point U)
        (U.filter (fun p => decide (p ≠ start_point U))))).reverse) =
    (hull_scan_go [start_point U]
      (sort_by_polar (start_point U)
        (U.filter (fun p => decide (p ≠ start_point U))))).reverse := by
  set s := start_point U with hsdef
  set others := U.filter (fun p => decide (p ≠ s)) with hodef
  set sorted := sort_by_polar s others with hsortdef
  set S := hull_scan_go [s] sorted with hSdef
  set H := S.reverse with hHdef
  have hUne : U ≠ [] := by
    intro h
    rw [h] at hUlen
    simp at hUlen
  have hsmem : s ∈ U := start_point_mem hUne
  have hUnodup : U.Nodup := pairwise_close_nodup hUpair
  have hperm : sorted.Perm others := List.perm_insertionSort _ others
  have hothers_sub : others ⊆ U := by
    rw [hodef]
    exact (List.filter_sublist U).subset
  have hs_not_others : s ∉ others := by
    intro h
    have := (List.mem_filter.mp h).2
    simp at this
  have hs_not_sorted : s ∉ sorted := fun h => hs_not_others (hperm.mem_iff.mp h)
  have hsorted_nodup : sorted.Nodup := hperm.nodup_iff.mpr (hUnodup.filter _)
  have hcons_nodup : (s :: sorted).Nodup := List.nodup_cons.mpr ⟨hs_not_sorted, hsorted_nodup⟩
  have hSok : StackOK S := scan_go_stackOK sorted [s] trivial
  have hSne : S ≠ [] := scan_go_ne_nil sorted [s] (by simp)
  have hSlast : S.getLast? = some s := by
    rw [hSdef, scan_go_getLast? sorted [s] (by simp)]
    rfl
  have hSsub : S.Sublist (sorted.reverse ++ [s]) := scan_go_sublist sorted [s]
  have hgl : S.getLast hSne = s := by
    have h2 := List.getLast?_eq_getLast S hSne
    rw [h2] at hSlast
    exact Option.some.inj hSlast
  have hSdecomp : S.dropLast ++ [s] = S := by
    rw [← hgl]
    exact List.dropLast_append_getLast hSne
  set T := S.dropLast.reverse with hTdef
  have hTfull : T.reverse = S.dropLast := by rw [hTdef, List.reverse_reverse]
  have hHeq : H = s :: T := by
    rw [hHdef, ← hSdecomp, List.reverse_append, hTdef]
    rfl
  have hHsub : H.Sublist (s :: sorted) := by
    have h2 := hSsub.reverse
    rw [List.reverse_append, List.reverse_reverse] at h2
    exact h2
  have hT_sub_sorted : T.Sublist sorted := by
    have h2 := hHsub
    rw [hHeq] at h2
    exact List.cons_sublist_cons.mp h2
  have hH_nodup : H.Nodup := hHsub.nodup hcons_nodup
  have hH_sub_U : ∀ p ∈ H, p ∈ U := by
    intro p hp
    rcases List.mem_cons.mp (hHsub.subset hp) with rfl | hmem
    · exact hsmem
    · exact hothers_sub (hperm.subset hmem)
  have hH_pairwise : H.Pairwise (fun p q => close_points p q = false) := by
    have hsymm : Symmetric (fun p q : Pt => close_points p q = false) := by
      intro a b hab
      rw [close_points_comm]
      exact hab
    have hforall := hUpair.forall hsymm
    exact hH_nodup.imp_of_mem
      (fun {a b} ha hb hne => hforall (hH_sub_U a ha) (hH_sub_U b hb) hne)
  by_cases hHlen : H.length < 3
  · rw [convex_hull, if_pos hHlen]
  · have hdedupH : dedup_close H = H := dedup_close_id hH_pairwise
    have hHne : H ≠ [] := by rw [hHeq]; simp
    have hs2 : start_point H = s := by
      have hle1 : anchor_key (start_point H) ≤ anchor_key s :=
        start_point_le (by rw [hHeq]; exact List.mem_cons_self _ _)
      have hle2 : anchor_key s ≤ anchor_key (start_point H) := by
        rw [hsdef]
        exact start_point_le (hH_sub_U _ (start_point_mem hHne))
      exact (anchor_key_inj (le_antisymm hle2 hle1)).symm ▸ rfl
    have hs_not_T : s ∉ T := by
      have h2 := hH_nodup
      rw [hHeq] at h2
      exact (List.nodup_cons.mp h2).1
    have hfilter : H.filter (fun p => decide (p ≠ s)) = T := by
      rw [hHeq]
      exact filter_ne_head hs_not_T
    have hsorted_sorted : List.Sorted (fun p q => polar_key s p ≤ polar_key s q) sorted :=
      sorted_sort_by_polar s others
    have hT_sorted : List.Sorted (fun p q => polar_key s p ≤ polar_key s q) T :=
      List.Pairwise.sublist hT_sub_sorted hsorted_sorted
    have hsortT : sort_by_polar s T = T := hT_sorted.insertionSort_eq
    have hscan : hull_scan_go [s] T = T.reverse ++ [s] := by
      refine scan_rebuild T [s] (by simp) ?_
      rw [hTfull, hSdecomp]
      exact hSok
    rw [convex_hull, if_neg hHlen]
    simp only [hdedupH, if_neg hHlen, hs2, hfilter, hsortT, hscan]
    rw [List.reverse_append, List.reverse_reverse, hHeq]
    simp

/-- Claim C5: the convex hull computation is idempotent.  In fact re-running
the effective `convex_hull` on its own output returns the very same list (a
statement stronger than the claimed set equality, which it implies): the
anchor of the hull is again the anchor of its input, the hull tail is already
sorted by polar angle, the stable sort leaves it in place, and the scan keeps
every point because consecutive hull triples turn strictly counter-clockwise
(`StackOK`). -/
theorem convex_hull_idempotent (P : List Pt) :
    convex_hull (convex_hull P) = convex_hull P := by
  by_cases h1 : P.length < 3
  · have hH : convex_hull P = P := by rw [convex_hull, if_pos h1]
    rw [hH, hH]
  · by_cases h2 : (dedup_close P).length < 3
    · have hH : convex_hull P = dedup_close P := by
        simp only [convex_hull, if_neg h1, if_pos h2]
      have hH2 : convex_hull (dedup_close P) = dedup_close P := by
        rw [convex_hull, if_pos h2]
      rw [hH, hH2]
    · have hH : convex_hull P = (hull_scan_go [start_point (dedup_close P)]
          (sort_by_polar (start_point (dedup_close P))
            ((dedup_close P).filter
              (fun p => decide (p ≠ start_point (dedup_close P)))))).reverse := by
        simp only [convex_hull, if_neg h1, if_neg h2]
      rw [hH]
      exact convex_hull_main_branch_fixed (dedup_close P) (dedup_close_pairwise P) h2
